import Mathlib

/-!
# Verification of the whatsapp-ml-bot session orchestration core

A shallow embedding, in Lean 4, of the parts of the `whatsapp-ml-bot`
TypeScript repository that its specification makes claims about:

* the pricing engine (`src/services/pricing.ts`, `src/utils/stats.ts`),
* the listing-draft title clamping (`src/services/listingDraft.ts`),
* the attribute negotiator (`WhatsAppMlBot.pickAttributeOption`,
  `WhatsAppMlBot.guessRequiredAttributeValue`),
* the guarded session state-machine commits of `WhatsAppMlBot`
  (`analyzeSession`, `publishSession`, `findActiveSession`),
* the durable JSON store (`JsonDbStore`, `writeFileAtomic`),
* the Mercado Livre OAuth single-flight token refresh
  (`MercadoLivreClient.getAccessToken`), modelled as an interleaving of the
  atomic segments between `await` points of the JavaScript event loop.

JavaScript numbers are modelled as exact rationals (`ℚ`): every `ℚ` is
finite, so `Number.isFinite` checks are identically true, and the float
literals 0.9 / 1.1 / 1.5 are taken at their decimal value.  Timestamps are
`ℕ` milliseconds.  `Record<string, T>` objects are modelled as lists of
values (`Object.values` order) or as lookup functions, as noted at each
definition.
-/

/- Batteries marks `Rat` arithmetic `@[irreducible]`, which stops `decide`
from evaluating the pricing engine on concrete inputs; re-open it for this
file (the definitions are unchanged, only their reducibility). -/
set_option allowUnsafeReducibility true
attribute [local semireducible] Rat.add Rat.mul Rat.div Rat.sub Rat.neg Rat.inv

namespace MlBot

/-! ## Pricing engine: `src/utils/stats.ts` and `src/services/pricing.ts` -/

/-- One comparable marketplace listing, from `types.ts` (`ComparableItem`).
Only the fields the pricing engine reads are kept (`permalink` and
`sold_quantity` are pass-through metadata). -/
structure ComparableItem where
  id : String
  title : String
  price : ℚ
  currency_id : String
  condition : Option String
deriving DecidableEq, Repr

/-- The pricing snapshot, from `types.ts` (`PriceAnalysis`). -/
structure PriceAnalysis where
  currency_id : String
  sample_size : ℕ
  min : ℚ
  p25 : ℚ
  median : ℚ
  p75 : ℚ
  max : ℚ
  suggested_fair : ℚ
  suggested_fast : ℚ
  suggested_profit : ℚ
  comparables : List ComparableItem
deriving DecidableEq, Repr

/-- Floor of a rational, computed by floor-division of numerator by
denominator so that the kernel can evaluate it (`Int.floor` on `ℚ` goes
through the `FloorRing` structure and does not reduce). -/
def ratFloor (q : ℚ) : ℤ := Int.fdiv q.num q.den

/-- JavaScript `Math.round`: nearest integer, halves toward `+∞`. -/
def jsRound (x : ℚ) : ℤ := ratFloor (x + 1/2)

/-- `quantile(sorted, q)` from `src/utils/stats.ts` lines 1-12.  The source
returns `NaN` on an empty list; `ℚ` has no `NaN`, so `0` stands in (the
pricing engine only calls it on lists of length ≥ 5). -/
def quantile (sorted : List ℚ) (q : ℚ) : ℚ :=
  if sorted.isEmpty then 0
  else if q ≤ 0 then sorted.headD 0
  else if 1 ≤ q then sorted.getLastD 0
  else
    let pos : ℚ := ((sorted.length : ℚ) - 1) * q
    let base : ℤ := ratFloor pos
    let rest : ℚ := pos - base
    let a := sorted.getD base.toNat 0
    let b := sorted.getD (base.toNat + 1) a
    a + rest * (b - a)

/-- `roundTo` from `src/utils/stats.ts` lines 19-23 (the `Number.isFinite`
guard is identically true over `ℚ`). -/
def roundTo (value step : ℚ) : ℚ :=
  if step ≤ 0 then value else (jsRound (value / step) : ℚ) * step

/-- `roundDownTo` from `src/utils/stats.ts` lines 25-29. -/
def roundDownTo (value step : ℚ) : ℚ :=
  if step ≤ 0 then value else (ratFloor (value / step) : ℚ) * step

/-- `stepFor` from `src/services/pricing.ts` lines 4-9. -/
def stepFor (medianValue : ℚ) : ℚ :=
  if medianValue < 100 then 5
  else if medianValue < 500 then 10
  else if medianValue < 2000 then 20
  else 50

/-- The two chained validity filters of `analyzePrices`
(`src/services/pricing.ts` lines 12-14): finite positive price, then
currency match when a preferred currency is given. -/
def validComparables (items : List ComparableItem) (preferredCurrency : Option String) :
    List ComparableItem :=
  (items.filter fun i => decide (0 < i.price)).filter fun i =>
    match preferredCurrency with
    | none => true
    | some c => i.currency_id == c

/-- `analyzePrices` from `src/services/pricing.ts` lines 11-61.  The inner
`.filter((p) => Number.isFinite(p))` is the identity over `ℚ` and the
ascending JS sort is `List.insertionSort (· ≤ ·)`. -/
def analyzePrices (items : List ComparableItem) (preferredCurrency : Option String) :
    Option PriceAnalysis :=
  let filtered := validComparables items preferredCurrency
  if filtered.length < 5 then none
  else
    let pricesSorted := (filtered.map (fun i => i.price)).insertionSort (· ≤ ·)
    let p25 := quantile pricesSorted (1/4)
    let p75 := quantile pricesSorted (3/4)
    let iqr := p75 - p25
    let low := p25 - 3/2 * iqr
    let high := p75 + 3/2 * iqr
    let pricesNoOutliers := pricesSorted.filter fun p => decide (low ≤ p) && decide (p ≤ high)
    let base := if 5 ≤ pricesNoOutliers.length then pricesNoOutliers else pricesSorted
    let q25 := quantile base (1/4)
    let median := quantile base (1/2)
    let q75 := quantile base (3/4)
    let step := stepFor median
    let suggestedFair := roundTo median step
    let fast0 := roundDownTo (min q25 (median * (9/10))) step
    let suggestedFast := if suggestedFair ≤ fast0 then max step (suggestedFair - step) else fast0
    let profit0 := roundTo (max q75 (median * (11/10))) step
    let suggestedProfit := if profit0 ≤ suggestedFair then suggestedFair + step else profit0
    let currencyId :=
      match preferredCurrency with
      | some c => c
      | none => (filtered.headD ⟨"", "", 0, "", none⟩).currency_id
    some
      { currency_id := currencyId
        sample_size := base.length
        min := base.headD 0
        p25 := q25
        median := median
        p75 := q75
        max := base.getLastD 0
        suggested_fair := suggestedFair
        suggested_fast := suggestedFast
        suggested_profit := suggestedProfit
        comparables := filtered.take 10 }

/-- A `ComparableItem` with the given id and price, in BRL, used for the
concrete pricing scenarios. -/
def brlItem (id : String) (p : ℚ) : ComparableItem := ⟨id, "item " ++ id, p, "BRL", none⟩

/-- The comparable set of the spec's pricing scenario (§8). -/
def scenarioItems : List ComparableItem :=
  [brlItem "a" 1000, brlItem "b" 1100, brlItem "c" 1200, brlItem "d" 1300,
   brlItem "e" 1400, brlItem "f" 1500, brlItem "g" 1600]

/-- What `analyzePrices` actually returns on `scenarioItems`: the median of
the seven prices is 1300 (the middle element), the step for that band is 20,
so `suggested_fair = 1300`, `suggested_fast = roundDownTo 1150 20 = 1140`
and `suggested_profit = roundTo 1450 20 = 1460` (1450/20 = 72.5 and JS
`Math.round` takes halves up). -/
def scenarioExpected : PriceAnalysis :=
  { currency_id := "BRL", sample_size := 7, min := 1000, p25 := 1150, median := 1300
    p75 := 1450, max := 1600, suggested_fair := 1300, suggested_fast := 1140
    suggested_profit := 1460, comparables := scenarioItems }

/-- Five comparables whose median is 7: the rounding step is 5, the fair
price rounds to 5, and the fast price clamps to `max step (fair - step) = 5`,
tying the fair price. -/
def flatItems : List ComparableItem :=
  [brlItem "a" 6, brlItem "b" 7, brlItem "c" 7, brlItem "d" 7, brlItem "e" 8]

/-- Four valid BRL comparables, one non-positive price and one
foreign-currency price: only 4 usable samples. -/
def sparseItems : List ComparableItem :=
  [brlItem "a" 100, brlItem "b" 120, brlItem "c" 0, ⟨"d", "item d", 130, "USD", none⟩,
   brlItem "e" 140, brlItem "f" 160]


/-! ## Listing draft title: `src/services/listingDraft.ts` -/

/-- The JavaScript whitespace class used by both `String.trim` and the
regexp class `\s` (code-unit values). -/
def jsIsWs (c : Char) : Bool :=
  c = ' ' || c = '\t' || c = '\n' || c.val = 11 || c.val = 12 || c = '\r' ||
  c.val = 0xa0 || c.val = 0x1680 || (0x2000 ≤ c.val && c.val ≤ 0x200a) ||
  c.val = 0x2028 || c.val = 0x2029 || c.val = 0x202f || c.val = 0x205f ||
  c.val = 0x3000 || c.val = 0xfeff

/-- `replace(/\s+/g, ' ')` as a left-to-right scan: the flag records whether
the previous character was whitespace (in which case further whitespace is
absorbed into the space already emitted). -/
def collapseWsGo : Bool → List Char → List Char
  | _, [] => []
  | prevWs, c :: rest =>
    if jsIsWs c then
      if prevWs then collapseWsGo true rest
      else ' ' :: collapseWsGo true rest
    else c :: collapseWsGo false rest

def collapseWs (l : List Char) : List Char := collapseWsGo false l

/-- JavaScript `String.prototype.trim`: strip the whitespace class from both
ends. -/
def jsTrim (l : List Char) : List Char :=
  ((l.dropWhile jsIsWs).reverse.dropWhile jsIsWs).reverse

/-- `clampTitle` from `src/services/listingDraft.ts` lines 23-27: trim,
collapse whitespace runs to single spaces, and when longer than 60
characters keep the first 60 and trim again. -/
def clampTitle (title : List Char) : List Char :=
  let t := collapseWs (jsTrim title)
  if t.length ≤ 60 then t else jsTrim (t.take 60)

/-- The `title` field of `buildListingDraft`
(`src/services/listingDraft.ts` line 48):
`clampTitle(input.titulo ?? input.title ?? vision.listing.title)`.  The
`userInput` record is modelled as a lookup function `String → Option _`
(`??` is nullish coalescing: an empty-string override is kept). -/
def buildListingDraftTitle (input : String → Option (List Char))
    (visionTitle : List Char) : List Char :=
  clampTitle ((input "titulo").getD ((input "title").getD visionTitle))

/-- No two adjacent whitespace characters: every whitespace run has been
collapsed. -/
def noDoubleWs (l : List Char) : Prop :=
  l.Chain' fun a b => ¬(jsIsWs a = true ∧ jsIsWs b = true)

/-! ## Session data model: `src/types.ts` -/

inductive SessionStatus
  | collecting_photos | analyzing | awaiting_user_info | awaiting_confirmation
  | publishing | done | cancelled | error
deriving DecidableEq, Repr

inductive ItemCondition
  | new | used | refurbished | unknown
deriving DecidableEq, Repr

/-- The vision-extracted product facts the negotiator reads
(`VisionProductGuess` in `types.ts`; the remaining fields are pass-through
text the claims never touch). -/
structure VisionProductGuess where
  short_name : String
  brand : Option String
  model : Option String
  color : Option String
  material : Option String
  condition : ItemCondition
deriving DecidableEq, Repr

structure VisionResult where
  confidence : ℚ
  product : VisionProductGuess
deriving DecidableEq, Repr

/-- `DraftAttributeValue` from `src/utils/mlAttributes.ts`. -/
structure DraftAttributeValue where
  value_name : Option String
  value_id : Option String
deriving DecidableEq, Repr

/-- `ListingDraft` from `types.ts`; `attributes` is a record keyed by
attribute id, modelled as an association list. -/
structure ListingDraft where
  title : String
  category_id : Option String
  condition : ItemCondition
  quantity : ℕ
  currency_id : String
  price_fair : Option ℚ
  price_fast : Option ℚ
  price_chosen : Option ℚ
  description_ptbr : String
  attributes : List (String × DraftAttributeValue)
deriving DecidableEq, Repr

structure PublishedItem where
  item_id : String
  permalink : Option String
  status : Option String
deriving DecidableEq, Repr

/-- `Session` from `types.ts` (photos kept as their storage paths). -/
structure Session where
  id : String
  groupId : String
  userId : String
  createdAt : ℕ
  updatedAt : ℕ
  status : SessionStatus
  collectUntil : Option ℕ
  photos : List String
  vision : Option VisionResult
  categoryId : Option String
  price : Option PriceAnalysis
  userInput : List (String × String)
  draft : Option ListingDraft
  published : Option PublishedItem
  pendingField : Option String
  error : Option String
deriving DecidableEq, Repr

/-- The persisted document: `db.sessions` is a record keyed by session id,
modelled as its `Object.values` list (a JS record has one entry per id). -/
structure Db where
  sessions : List Session
deriving DecidableEq, Repr

/-- JavaScript truthiness of an optional string: `null`/`undefined` and the
empty string are falsy. -/
def jsTruthyStr (o : Option String) : Bool :=
  match o with
  | none => false
  | some s => s != ""

/-- `['done', 'cancelled', 'error'].includes(s.status)` from
`findActiveSession` (`WhatsAppMlBot.ts` line 125). -/
def terminalStatus (s : SessionStatus) : Bool :=
  s == .done || s == .cancelled || s == .error

inductive SessionScope
  | group | user
deriving DecidableEq, Repr

/-- `findActiveSession` from `WhatsAppMlBot.ts` lines 122-128: filter to the
scope, drop terminal sessions, sort by `updatedAt` descending and take the
first. -/
def findActiveSession (db : Db) (groupId userId : String) (scope : SessionScope) :
    Option Session :=
  let active := ((db.sessions.filter fun s =>
      s.groupId == groupId && (scope == SessionScope.group || s.userId == userId)).filter
      fun s => !terminalStatus s.status).insertionSort fun a b => b.updatedAt ≤ a.updatedAt
  active.head?

/-- `db2.sessions[sessionId] = f(db2.sessions[sessionId])`: the in-place
mutation of one record entry (ids are unique in a JS record, so mapping over
the values list touches the one entry). -/
def updateSessionDb (db : Db) (sid : String) (f : Session → Session) : Db :=
  ⟨db.sessions.map fun s => if s.id == sid then f s else s⟩

def findSession (db : Db) (sid : String) : Option Session :=
  db.sessions.find? fun s => s.id == sid

/-! ## Debounced analysis commit: `WhatsAppMlBot.analyzeSession` -/

/-- The JS guard `s.collectUntil && s.collectUntil > now`
(`WhatsAppMlBot.ts` line 751): a missing or zero deadline is falsy. -/
def collectUntilFuture (cu : Option ℕ) (now : ℕ) : Bool :=
  match cu with
  | none => false
  | some c => c != 0 && decide (now < c)

/-- Result of the debounce compare-and-set update
(`WhatsAppMlBot.ts` lines 745-758): the mutated document, the `started`
flag, and the still-future deadline captured for rescheduling (if any). -/
structure DebounceOutcome where
  db : Db
  started : Bool
  collectUntil : Option ℕ
deriving DecidableEq, Repr

/-- The single store update of `analyzeSession` that both checks and
mutates: missing session or a status other than `collecting_photos` is a
no-op; a still-future deadline is captured and nothing is mutated; otherwise
the session moves to `analyzing`. -/
def analyzeDebounceCommit (db : Db) (sid : String) (now : ℕ) : DebounceOutcome :=
  match findSession db sid with
  | none => ⟨db, false, none⟩
  | some s =>
    if s.status != .collecting_photos then ⟨db, false, none⟩
    else if collectUntilFuture s.collectUntil now then ⟨db, false, s.collectUntil⟩
    else
      ⟨updateSessionDb db sid fun t =>
        { t with status := .analyzing, updatedAt := now }, true, none⟩

inductive AnalyzeAction
  | reschedule (delayMs : ℕ)
  | drop
  | proceed
deriving DecidableEq, Repr

/-- The driver around the commit (`WhatsAppMlBot.ts` lines 760-764): a
captured future deadline reschedules the timer for the remaining time
(`Math.max(1000, collectUntil - now)`, evaluated here at the same instant
`now`); a failed compare-and-set drops the task; otherwise analysis
proceeds. -/
def analyzeSessionStep (db : Db) (sid : String) (now : ℕ) : Db × AnalyzeAction :=
  let o := analyzeDebounceCommit db sid now
  match o.collectUntil with
  | some c => (o.db, .reschedule (Nat.max 1000 (c - now)))
  | none => if o.started then (o.db, .proceed) else (o.db, .drop)

/-! ## Analysis completion commits: `WhatsAppMlBot.analyzeSession` -/

/-- The success-commit mutator (`WhatsAppMlBot.ts` lines 797-810) applied to
the session record: guarded on `status === 'analyzing'`, it stores the
vision result, category (JS-truthy only), price, and moves to
`awaiting_user_info`. -/
def analyzeSuccessApply (v : VisionResult) (categoryId : Option String)
    (price : Option PriceAnalysis) (now : ℕ) (s : Session) : Session :=
  if s.status != .analyzing then s
  else
    { s with
      vision := some v
      categoryId := if jsTruthyStr categoryId then categoryId else none
      price := price
      status := .awaiting_user_info
      updatedAt := now }

/-- The success commit over the document, paired with the `applied` flag the
source sets inside the mutator. -/
def analyzeSuccessCommit (db : Db) (sid : String) (v : VisionResult)
    (categoryId : Option String) (price : Option PriceAnalysis) (now : ℕ) :
    Db × Bool :=
  (updateSessionDb db sid (analyzeSuccessApply v categoryId price now),
    (findSession db sid).elim false fun s => s.status == .analyzing)

/-- The failure-commit mutator (`WhatsAppMlBot.ts` lines 823-830): guarded
on `status === 'analyzing'`, it records the error message and moves to
`error`. -/
def analyzeFailureApply (errMsg : String) (now : ℕ) (s : Session) : Session :=
  if s.status != .analyzing then s
  else { s with status := .error, error := some errMsg, updatedAt := now }

def analyzeFailureCommit (db : Db) (sid : String) (errMsg : String) (now : ℕ) : Db :=
  updateSessionDb db sid (analyzeFailureApply errMsg now)

/-! ## Publish pipeline error branch: `WhatsAppMlBot.publishSession` -/

/-- `MlCreateItemResult` from `src/services/mercadoLivre.ts`. -/
structure MlCreateItemResult where
  id : String
  permalink : Option String
  status : Option String
deriving DecidableEq, Repr

/-- The catch-branch mutator of `publishSession` when an item was already
created (`WhatsAppMlBot.ts` lines 1624-1634): keep (or create) the
`published` record with the item id, record the error, and close the session
as `done` — never back to an awaiting state. -/
def publishCatchCreatedApply (created : MlCreateItemResult) (errMsg : String)
    (now : ℕ) (s : Session) : Session :=
  let p0 := s.published.getD ⟨created.id, none, none⟩
  let p1 := if jsTruthyStr created.permalink then { p0 with permalink := created.permalink } else p0
  let p2 := if jsTruthyStr created.status then { p1 with status := created.status } else p1
  { s with
    published := some p2
    error := some errMsg
    updatedAt := now
    status := if s.status == .publishing then .done else s.status }


/-- A complete session record used as the base of the concrete scenarios. -/
def baseSession : Session :=
  { id := "s1", groupId := "g1", userId := "u1", createdAt := 1000, updatedAt := 2000
    status := .collecting_photos, collectUntil := some 50000, photos := ["p1.jpg"]
    vision := none, categoryId := none, price := none, userInput := []
    draft := none, published := none, pendingField := none, error := none }

def publishingSession : Session := { baseSession with status := .publishing }

def cancelledSession : Session := { baseSession with status := .cancelled }

def createdItemEx : MlCreateItemResult := ⟨"MLB123", some "https://ml/x", some "paused"⟩

/-! ## Durable store: `src/storage/store.ts` and `src/utils/fs.ts` -/

/-- Where `writeFileAtomic` can fail: while writing the temporary file, or
at the rename; `rename` itself is atomic, so the target is either fully
replaced or untouched. -/
inductive WriteOutcome
  | ok | tmpWriteFail | renameFail
deriving DecidableEq, Repr

/-- `writeFileAtomic` from `src/utils/fs.ts` lines 8-15 over a filesystem
reduced to the target file's (parsed) content: returns the I/O result and
the target content afterwards — unchanged unless the rename happened. -/
def writeFileAtomicM (target content : Db) : WriteOutcome → Except String Unit × Db
  | .ok => (.ok (), content)
  | .tmpWriteFail => (.error "EIO: writeFile tmp", target)
  | .renameFail => (.error "EIO: rename", target)

/-- `JsonDbStore`'s state: the in-memory cache and the backing file.  The
concurrency-1 queue serialises every `read`/`update`, so the store is
modelled by its sequential state transitions. -/
structure StoreState where
  cache : Option Db
  file : Db
deriving DecidableEq, Repr

/-- `readUnlocked` (`store.ts` lines 1793-1800): the cache when present,
else the parsed file (the cache-priming side effect does not change what any
read returns). -/
def readUnlocked (st : StoreState) : Db := st.cache.getD st.file

/-- `read` (`store.ts` lines 1802-1805): a deep copy of the current
document — value semantics make `cloneJson` the identity. -/
def storeRead (st : StoreState) : Db := readUnlocked st

/-- `update` (`store.ts` lines 1807-1818).  The mutator runs on
`cloneJson(current)`, so a mutator that throws (`Except.error`) discards
whatever it did to the clone; the cache is replaced only after
`writeFileAtomic` succeeded.  (`if (!db.sessions) db.sessions = {}` is the
identity here: the modelled `Db` always has a `sessions` field.) -/
def storeUpdate (st : StoreState) (mutator : Db → Except String Db)
    (o : WriteOutcome) : Except String Db × StoreState :=
  let current := readUnlocked st
  match mutator current with
  | .error e => (.error e, st)
  | .ok db' =>
    match writeFileAtomicM st.file db' o with
    | (.error e, f) => (.error e, { st with file := f })
    | (.ok _, f) => (.ok db', { cache := some db', file := f })

/-- A store state primed by `init` (cache loaded), over one session. -/
def storeEx : StoreState := ⟨some ⟨[baseSession]⟩, ⟨[baseSession]⟩⟩

/-- A mutator that throws. -/
def failingMutator : Db → Except String Db := fun _ => .error "mutator boom"

/-! ## Attribute negotiator: `WhatsAppMlBot.pickAttributeOption` and
`WhatsAppMlBot.guessRequiredAttributeValue` -/

/-- One enumerated option of a category attribute
(`MlCategoryAttribute.values[i]` in `src/services/mercadoLivre.ts`). -/
structure MlAttrValue where
  id : Option String
  name : Option String
deriving DecidableEq, Repr

/-- `MlCategoryAttribute` (`src/services/mercadoLivre.ts`): `values ?? []`
is modelled by a plain list; the `tags`/`value_type` metadata is not read by
the option-matching code. -/
structure MlCategoryAttribute where
  id : String
  name : String
  values : List MlAttrValue
deriving DecidableEq, Repr

/-- `.trim()` over the JS whitespace class. -/
def jsStrTrim (s : String) : String := String.mk (jsTrim s.data)

/-- `.toUpperCase()` / `.toLowerCase()`, character-wise (ASCII semantics;
the attribute ids and synonyms these run on are ASCII). -/
def jsToUpper (s : String) : String := String.mk (s.data.map Char.toUpper)

def jsToLower (s : String) : String := String.mk (s.data.map Char.toLower)

/-- `id.endsWith(suffix)`. -/
def strEndsWith (s suffix : String) : Bool := suffix.data.isSuffixOf s.data

/-- `a.includes(b)`: `b` occurs as a contiguous substring of `a`. -/
def strIncludes (a b : String) : Bool :=
  a.data.tails.any fun t => b.data.isPrefixOf t

def isAsciiLowerAlnum (c : Char) : Bool :=
  ('a' ≤ c && c ≤ 'z') || ('0' ≤ c && c ≤ '9')

/-- `replace(/[^a-z0-9]+/g, ' ')`: runs of non-alphanumerics become one
space. -/
def collapseNonAlnumGo : Bool → List Char → List Char
  | _, [] => []
  | prev, c :: rest =>
    if isAsciiLowerAlnum c then c :: collapseNonAlnumGo false rest
    else if prev then collapseNonAlnumGo true rest
    else ' ' :: collapseNonAlnumGo true rest

/-- `normalizeAttrText` from `WhatsAppMlBot.ts` lines 1132-1139: lowercase,
collapse non-alphanumerics to single spaces, trim.  The NFD
diacritic-stripping step is the identity on ASCII text (which is all the
claims evaluate it on); a composed accented letter is treated as a
non-alphanumeric here where the source would keep its base letter. -/
def normalizeAttrText (value : String) : String :=
  String.mk (jsTrim (collapseNonAlnumGo false (jsToLower value).data))

def attrIsHomologation (id : String) : Bool := strEndsWith id "_HOMOLOGATION_NUMBER"

/-- The shared return ladder of `pickAttributeOption`
(`WhatsAppMlBot.ts` lines 1151-1153, 1167-1169, 1173-1175): prefer the plain
name for homologation attributes, else a structured `value_id`, else the
name; `none` means control falls through in the source. -/
def pickFromValue (attrId : String) (vid vname : Option String) :
    Option DraftAttributeValue :=
  if attrIsHomologation attrId && jsTruthyStr vname then some ⟨vname, none⟩
  else if jsTruthyStr vid then some ⟨none, vid⟩
  else if jsTruthyStr vname then some ⟨vname, none⟩
  else none

/-- A pre-normalized enumerated option (`normalizedValues` in
`pickAttributeOption`). -/
structure NormValue where
  id : Option String
  name : Option String
  norm : String
deriving DecidableEq, Repr

/-- The `for (const candidate of cleaned)` loop of `pickAttributeOption`
(`WhatsAppMlBot.ts` lines 1162-1177): exact normalized match first, then
substring containment either way; a candidate that matches nothing moves on
to the next. -/
def pickLoop (attrId : String) (normalizedValues : List NormValue) :
    List String → Option DraftAttributeValue
  | [] => none
  | candidate :: rest =>
    let normCandidate := normalizeAttrText candidate
    if normCandidate == "" then pickLoop attrId normalizedValues rest
    else
      let exactFound := normalizedValues.find? fun v =>
        v.norm != "" && v.norm == normCandidate
      match
        (match exactFound with
         | some v => pickFromValue attrId v.id v.name
         | none => none) with
      | some r => some r
      | none =>
        let partFound := normalizedValues.find? fun v =>
          v.norm != "" && (strIncludes v.norm normCandidate || strIncludes normCandidate v.norm)
        match
          (match partFound with
           | some v => pickFromValue attrId v.id v.name
           | none => none) with
        | some r => some r
        | none => pickLoop attrId normalizedValues rest

/-- `pickAttributeOption` from `WhatsAppMlBot.ts` lines 1141-1183. -/
def pickAttributeOption (attr : MlCategoryAttribute)
    (preferredNames : List (Option String)) : Option DraftAttributeValue :=
  let cleaned := (preferredNames.map fun v => jsStrTrim (v.getD "")).filter fun s => s != ""
  let values := attr.values
  let inner : Option DraftAttributeValue :=
    if values.isEmpty then none
    else
      let singleR : Option DraftAttributeValue :=
        if values.length == 1 then
          match values.head? with
          | some only => pickFromValue attr.id only.id only.name
          | none => none
        else none
      match singleR with
      | some r => some r
      | none =>
        let normalizedValues := values.map fun v =>
          let nm := v.name.map jsStrTrim
          NormValue.mk (v.id.map jsStrTrim) nm (normalizeAttrText (nm.getD ""))
        pickLoop attr.id normalizedValues cleaned
  match inner with
  | some r => some r
  | none => cleaned.head?.map fun f => ⟨some f, none⟩

/-- `draft.attributes[attr.id]` over the association-list model. -/
def lookupAttr (attrs : List (String × DraftAttributeValue)) (k : String) :
    Option DraftAttributeValue :=
  (attrs.find? fun p => p.1 == k).map Prod.snd

/-- `guessRequiredAttributeValue` from `WhatsAppMlBot.ts` lines 1185-1231:
route the attribute id to the matching vision fact / condition synonyms /
defaults, falling through to `pickAttributeOption(attr, [])`. -/
def guessRequiredAttributeValue (attr : MlCategoryAttribute) (draft : ListingDraft)
    (vision : Option VisionResult) : Option DraftAttributeValue :=
  let id := jsToUpper attr.id
  let condition := draft.condition
  let vbrand := vision.bind fun v => v.product.brand
  let vmodel := vision.bind fun v => v.product.model
  let vcolor := vision.bind fun v => v.product.color
  let vmaterial := vision.bind fun v => v.product.material
  if id == "BRAND" then pickAttributeOption attr [vbrand]
  else if id == "MODEL" then pickAttributeOption attr [vmodel]
  else if id == "COLOR" || id == "MAIN_COLOR" then pickAttributeOption attr [vcolor]
  else if id == "MATERIAL" then pickAttributeOption attr [vmaterial]
  else if id == "ITEM_CONDITION" && condition == ItemCondition.new then
    pickAttributeOption attr [some "novo", some "new"]
  else if id == "ITEM_CONDITION" && condition == ItemCondition.used then
    pickAttributeOption attr [some "usado", some "used"]
  else if id == "ITEM_CONDITION" && condition == ItemCondition.refurbished then
    pickAttributeOption attr [some "recondicionado", some "refurbished", some "remanufaturado"]
  else if id == "WARRANTY_TYPE" && condition == ItemCondition.used then
    pickAttributeOption attr [some "sem garantia", some "without warranty"]
  else if id == "WARRANTY_TYPE" then
    pickAttributeOption attr [some "garantia do vendedor", some "sem garantia"]
  else if id == "EMPTY_GTIN_REASON" then
    pickAttributeOption attr [some "outro motivo", some "nao se aplica", some "não se aplica"]
  else if id == "UNITS_PER_PACK" || id == "PACKAGE_QUANTITY" || id == "UNITS_PER_PACKAGE" then
    pickAttributeOption attr [some "1"]
  else if attrIsHomologation id then
    match lookupAttr draft.attributes attr.id with
    | some cur => if jsTruthyStr cur.value_name then some ⟨cur.value_name, none⟩ else none
    | none => none
  else pickAttributeOption attr []

/-- The vision fact `guessRequiredAttributeValue` consults for each of the
brand/model/color/material attribute kinds. -/
def visionFact (idUpper : String) (vision : Option VisionResult) : Option String :=
  if idUpper == "BRAND" then vision.bind fun v => v.product.brand
  else if idUpper == "MODEL" then vision.bind fun v => v.product.model
  else if idUpper == "COLOR" || idUpper == "MAIN_COLOR" then vision.bind fun v => v.product.color
  else vision.bind fun v => v.product.material

/-- A `BRAND` attribute with exactly one enumerated option. -/
def brandSingleOption : MlCategoryAttribute := ⟨"BRAND", "Marca", [⟨some "111", some "Acme"⟩]⟩

/-- A `COLOR` attribute with two enumerated options. -/
def colorTwoOptions : MlCategoryAttribute :=
  ⟨"COLOR", "Cor", [⟨some "52049", some "Preto"⟩, ⟨some "52051", some "Branco"⟩]⟩

/-- A draft with nothing filled in. -/
def emptyDraft : ListingDraft := ⟨"", none, .unknown, 1, "BRL", none, none, none, "", []⟩


/-! ## Single-flight token refresh: `MercadoLivreClient.getAccessToken`
(`src/services/mercadoLivre.ts` lines 292-360)

JavaScript is single-threaded: between two `await` points a function body
runs atomically.  `getAccessToken` is modelled as a per-caller program
counter stepping through its atomic segments, with an arbitrary scheduler
interleaving the callers.  The model assumes the claim's premise: a token
pair is already cached (`this.tokens` non-null — so the `await
this.getTokens()` load at entry is skipped and the first segment is atomic
up to the refresh `fetch`), the cached pair is expired (inside the 60s
safety margin), the refresh endpoint and `saveTokens` succeed, and the clock
is frozen at `now` (the cached token stays expired at every re-check and the
refreshed one stays valid).

Segments of one caller:

* `start` — lines 293-308 and the synchronous prefix of the IIFE (lines
  309-316: the re-check sees the same still-expired `this.tokens`, so it
  falls through to the `fetch`).  A fresh cached token returns it at once
  (`doneLate`); an in-flight refresh is awaited (`waiting`); otherwise this
  caller becomes the refresher: it sets `refreshInFlight`, counts one call
  to the token endpoint and suspends on the `fetch` (`leaderFetch`).
* `leaderFetch → leaderSave` — the response arrived (lines 330-350):
  `this.tokens = t`, then suspend on `await this.saveTokens(t)`.
* `leaderSave → leaderResolve` — `saveTokens` completed; the IIFE returns,
  resolving the shared promise (line 352).
* `leaderResolve → doneLeader` — the outer `return await
  this.refreshInFlight` resumes and the `finally` clears `refreshInFlight`
  (lines 355-359).
* `waiting → doneWaiter` — a waiter resumes once the shared promise is
  resolved (line 301).
-/

/-- `MlTokens` from `src/services/mercadoLivre.ts`. -/
structure MlTokens where
  access_token : String
  refresh_token : String
  expires_at_ms : ℕ
deriving DecidableEq, Repr

/-- `this.tokens.expires_at_ms > now + 60_000`: valid beyond the 60s safety
margin (lines 296, 312). -/
def tokenFresh (t : MlTokens) (now : ℕ) : Bool := decide (now + 60000 < t.expires_at_ms)

inductive CallerPc
  | start
  | waiting
  | leaderFetch
  | leaderSave
  | leaderResolve
  | doneLeader (tok : String)
  | doneWaiter (tok : String)
  | doneLate (tok : String)
deriving DecidableEq, Repr

/-- The access token a finished caller returned, if it has finished. -/
def finishedTok : CallerPc → Option String
  | .doneLeader t => some t
  | .doneWaiter t => some t
  | .doneLate t => some t
  | _ => none

/-- The client's shared fields plus each caller's program counter:
`tokens` is `this.tokens`, `inflight` whether `this.refreshInFlight` is set,
`resolved` the shared promise's resolution, `fetchCount` how many times the
token endpoint was called, `saved` whether `saveTokens` has completed. -/
structure ClientState (n : ℕ) where
  tokens : MlTokens
  inflight : Bool
  resolved : Option String
  fetchCount : ℕ
  saved : Bool
  pcs : Fin n → CallerPc

/-- One atomic segment of caller `i` (a no-op when `i` is blocked or
finished). -/
def clientStep (now : ℕ) (newTok : MlTokens) {n : ℕ} (s : ClientState n) (i : Fin n) :
    ClientState n :=
  match s.pcs i with
  | .start =>
    if tokenFresh s.tokens now then
      { s with pcs := Function.update s.pcs i (.doneLate s.tokens.access_token) }
    else if s.inflight then
      { s with pcs := Function.update s.pcs i .waiting }
    else
      { s with
        inflight := true
        fetchCount := s.fetchCount + 1
        pcs := Function.update s.pcs i .leaderFetch }
  | .waiting =>
    match s.resolved with
    | some tok => { s with pcs := Function.update s.pcs i (.doneWaiter tok) }
    | none => s
  | .leaderFetch =>
    { s with tokens := newTok, pcs := Function.update s.pcs i .leaderSave }
  | .leaderSave =>
    { s with
      saved := true
      resolved := some newTok.access_token
      pcs := Function.update s.pcs i .leaderResolve }
  | .leaderResolve =>
    { s with inflight := false, pcs := Function.update s.pcs i (.doneLeader newTok.access_token) }
  | .doneLeader _ => s
  | .doneWaiter _ => s
  | .doneLate _ => s

/-- Run a schedule (an arbitrary interleaving of caller steps). -/
def clientRun (now : ℕ) (newTok : MlTokens) {n : ℕ} (s : ClientState n) :
    List (Fin n) → ClientState n
  | [] => s
  | i :: rest => clientRun now newTok (clientStep now newTok s i) rest

/-- All `n` callers about to call `getAccessToken` over the expired cached
pair `oldTok`. -/
def initClient (n : ℕ) (oldTok : MlTokens) : ClientState n :=
  { tokens := oldTok, inflight := false, resolved := none, fetchCount := 0, saved := false,
    pcs := fun _ => .start }

def isLeaderish : CallerPc → Bool
  | .leaderFetch | .leaderSave | .leaderResolve | .doneLeader _ => true
  | _ => false

def isActiveLeader : CallerPc → Bool
  | .leaderFetch | .leaderSave | .leaderResolve => true
  | _ => false

def pastFetch : CallerPc → Bool
  | .leaderSave | .leaderResolve | .doneLeader _ => true
  | _ => false

def pastSave : CallerPc → Bool
  | .leaderResolve | .doneLeader _ => true
  | _ => false

/-- The inductive invariant of the single-flight protocol: one leader at
most, the fetch counter tied to the leader's existence, `refreshInFlight`
tied to the leader being between its creation and its `finally`, the shared
promise resolved exactly once `saveTokens` completed, and every finished
caller holding the refreshed access token. -/
structure SingleFlightInv (now : ℕ) (oldTok newTok : MlTokens) {n : ℕ}
    (s : ClientState n) : Prop where
  uniqueLeader : ∀ i j, isLeaderish (s.pcs i) = true → isLeaderish (s.pcs j) = true → i = j
  fetch0 : (∀ i, isLeaderish (s.pcs i) = false) → s.fetchCount = 0
  fetch1 : ∀ i, isLeaderish (s.pcs i) = true → s.fetchCount = 1
  inflightIff : s.inflight = true ↔ ∃ i, isActiveLeader (s.pcs i) = true
  tokensOldOrNew : s.tokens = oldTok ∨ s.tokens = newTok
  tokensNewIff : s.tokens = newTok ↔ ∃ i, pastFetch (s.pcs i) = true
  resolvedEq : s.resolved = if s.saved then some newTok.access_token else none
  savedIff : s.saved = true ↔ ∃ i, pastSave (s.pcs i) = true
  doneLeaderOk : ∀ i t, s.pcs i = .doneLeader t → t = newTok.access_token
  doneWaiterOk : ∀ i t, s.pcs i = .doneWaiter t → t = newTok.access_token ∧ s.saved = true
  doneLateOk : ∀ i t, s.pcs i = .doneLate t →
    t = newTok.access_token ∧ s.tokens = newTok

/-- An expired token pair (dead at t = 30s). -/
def oldTokEx : MlTokens := ⟨"old-access", "old-refresh", 30000⟩

/-- The freshly refreshed pair. -/
def newTokEx : MlTokens := ⟨"new-access", "new-refresh", 999999999⟩

/-- A schedule for three callers: caller 0 leads the refresh, caller 1 waits
on the in-flight promise, caller 2 arrives after the fetch response landed
and reads the fresh cache. -/
def schedEx : List (Fin 3) := [0, 1, 0, 2, 0, 1, 0]

/-! ## Theorems -/

theorem ratFloor_eq (q : ℚ) : ratFloor q = ⌊q⌋ := by
  rw [Rat.floor_def, ratFloor, Int.fdiv_eq_ediv q.num (Int.ofNat_nonneg q.den)]

theorem stepFor_pos (m : ℚ) : 0 < stepFor m := by
  unfold stepFor
  repeat' split
  all_goals norm_num

/-- The final adjustment of `suggested_profit` always lands strictly above
`suggested_fair`. -/
theorem fair_lt_profit_adjust (fair p0 step : ℚ) (hs : 0 < step) :
    fair < if p0 ≤ fair then fair + step else p0 := by
  split
  · linarith
  · linarith [lt_of_not_le (by assumption : ¬ p0 ≤ fair)]

/-- The final adjustment of `suggested_fast` lands strictly below
`suggested_fair` provided `suggested_fair` is at least two steps (otherwise
the `max step _` clamp can tie or exceed it). -/
theorem fast_lt_fair_adjust (fair f0 step : ℚ) (hs : 0 < step) (h2 : 2 * step ≤ fair) :
    (if fair ≤ f0 then max step (fair - step) else f0) < fair := by
  split
  · apply max_lt <;> linarith
  · exact lt_of_not_le (by assumption)

/-- C6: for every input list of comparables with fewer than 5 valid entries
(positive price and, when a preferred currency is given, matching currency),
`analyzePrices` returns `null`. -/
theorem analyzePrices_insufficient_samples (items : List ComparableItem)
    (pc : Option String) (h : (validComparables items pc).length < 5) :
    analyzePrices items pc = none := by
  simp only [analyzePrices]
  rw [if_pos h]

/-- Witness for C6: `sparseItems` has six entries but only four valid BRL
comparables, and `analyzePrices` returns `none` on it. -/
theorem analyzePrices_insufficient_samples_witness :
    (validComparables sparseItems (some "BRL")).length < 5 ∧
      analyzePrices sparseItems (some "BRL") = none :=
  ⟨by decide, analyzePrices_insufficient_samples sparseItems (some "BRL") (by decide)⟩

/-- Counterexample to C5 as stated: on `flatItems` the fast and fair
suggestions coincide (both 5), so `suggested_fast < suggested_fair` fails
even though `analyzePrices` returned a non-null analysis. -/
theorem analyzePrices_strict_order_cex :
    (analyzePrices flatItems (some "BRL")).map PriceAnalysis.suggested_fast = some 5 ∧
      (analyzePrices flatItems (some "BRL")).map PriceAnalysis.suggested_fair = some 5 := by
  decide

/-- C5 (amended): whenever `analyzePrices` returns a non-null analysis,
`suggested_fair < suggested_profit` holds unconditionally, and
`suggested_fast < suggested_fair` holds provided `suggested_fair` is at
least two rounding steps; when `suggested_fair ≤ step` the `max step _`
clamp of the fast suggestion can tie it with the fair price. -/
theorem analyzePrices_ordering_amended (items : List ComparableItem)
    (pc : Option String) (r : PriceAnalysis) (h : analyzePrices items pc = some r) :
    r.suggested_fair < r.suggested_profit ∧
      (2 * stepFor r.median ≤ r.suggested_fair →
        r.suggested_fast < r.suggested_fair) := by
  simp only [analyzePrices] at h
  split at h
  · exact absurd h (by simp)
  · cases h
    exact ⟨fair_lt_profit_adjust _ _ _ (stepFor_pos _),
      fun h2 => fast_lt_fair_adjust _ _ _ (stepFor_pos _) h2⟩

/-- Witness for C5 (amended), at the spec's own scenario input. -/
theorem analyzePrices_ordering_amended_witness :
    analyzePrices scenarioItems (some "BRL") = some scenarioExpected ∧
      (scenarioExpected.suggested_fair < scenarioExpected.suggested_profit ∧
        (2 * stepFor scenarioExpected.median ≤ scenarioExpected.suggested_fair →
          scenarioExpected.suggested_fast < scenarioExpected.suggested_fair)) :=
  ⟨by decide,
    analyzePrices_ordering_amended scenarioItems (some "BRL") scenarioExpected (by decide)⟩

/-- Counterexample to C7 as stated: on the scenario prices
`[1000,1100,1200,1300,1400,1500,1600]` the fair suggestion is not 1200. -/
theorem analyzePrices_scenario_fair_cex :
    (analyzePrices scenarioItems (some "BRL")).map PriceAnalysis.suggested_fair ≠
      some 1200 := by
  decide

/-- C7 (amended): on the scenario prices the median is 1300 (the middle of
the seven values), so `suggested_fair = 1300` — rounded to the nearest 20 —
with `suggested_fast = 1140 < 1300` and `suggested_profit = 1460 > 1300`. -/
theorem analyzePrices_scenario_amended :
    analyzePrices scenarioItems (some "BRL") = some scenarioExpected ∧
      scenarioExpected.suggested_fair = 1300 ∧
      scenarioExpected.suggested_fast < scenarioExpected.suggested_fair ∧
      scenarioExpected.suggested_fair < scenarioExpected.suggested_profit := by
  decide

theorem collapseWsGo_head_not_ws (l : List Char) :
    ∀ c, (collapseWsGo true l).head? = some c → jsIsWs c = false := by
  induction l with
  | nil => intro c h; simp [collapseWsGo] at h
  | cons a rest ih =>
    intro c h
    by_cases ha : jsIsWs a = true
    · rw [collapseWsGo, if_pos ha, if_pos rfl] at h
      exact ih c h
    · rw [collapseWsGo, if_neg ha] at h
      simp only [List.head?_cons, Option.some.injEq] at h
      subst h
      exact Bool.not_eq_true _ ▸ ha

theorem collapseWsGo_chain (l : List Char) :
    ∀ b, noDoubleWs (collapseWsGo b l) := by
  induction l with
  | nil => intro b; simp [collapseWsGo, noDoubleWs]
  | cons a rest ih =>
    intro b
    by_cases ha : jsIsWs a = true
    · cases b with
      | true => rw [collapseWsGo, if_pos ha, if_pos rfl]; exact ih true
      | false =>
        rw [collapseWsGo, if_pos ha, if_neg (by simp)]
        refine List.chain'_cons'.mpr ⟨?_, ih true⟩
        intro y hy hcon
        exact absurd hcon.2 (by simp [collapseWsGo_head_not_ws rest y hy])
    · rw [collapseWsGo, if_neg ha]
      refine List.chain'_cons'.mpr ⟨?_, ih false⟩
      intro y _ hcon
      exact ha hcon.1

theorem collapseWsGo_ws_is_space (l : List Char) :
    ∀ b c, c ∈ collapseWsGo b l → jsIsWs c = true → c = ' ' := by
  induction l with
  | nil => intro b c h; simp [collapseWsGo] at h
  | cons a rest ih =>
    intro b c h hws
    by_cases ha : jsIsWs a = true
    · cases b with
      | true => rw [collapseWsGo, if_pos ha, if_pos rfl] at h; exact ih true c h hws
      | false =>
        rw [collapseWsGo, if_pos ha, if_neg (by simp)] at h
        rcases List.mem_cons.mp h with h | h
        · exact h
        · exact ih true c h hws
    · rw [collapseWsGo, if_neg ha] at h
      rcases List.mem_cons.mp h with h | h
      · subst h; exact absurd hws ha
      · exact ih false c h hws

theorem noDoubleWs_reverse {l : List Char} (h : noDoubleWs l) : noDoubleWs l.reverse :=
  List.chain'_reverse.mpr (h.imp fun _ _ hab hc => hab ⟨hc.2, hc.1⟩)

theorem noDoubleWs_jsTrim {l : List Char} (h : noDoubleWs l) : noDoubleWs (jsTrim l) :=
  noDoubleWs_reverse (((noDoubleWs_reverse (h.suffix (List.dropWhile_suffix _))).suffix
    (List.dropWhile_suffix _)))

theorem mem_jsTrim {l : List Char} {c : Char} (h : c ∈ jsTrim l) : c ∈ l := by
  rw [jsTrim, List.mem_reverse] at h
  have h1 := (List.dropWhile_sublist (l := (l.dropWhile jsIsWs).reverse) jsIsWs).mem h
  rw [List.mem_reverse] at h1
  exact (List.dropWhile_sublist jsIsWs).mem h1

theorem jsTrim_length_le (l : List Char) : (jsTrim l).length ≤ l.length := by
  rw [jsTrim, List.length_reverse]
  calc ((l.dropWhile jsIsWs).reverse.dropWhile jsIsWs).length
      ≤ (l.dropWhile jsIsWs).reverse.length := (List.dropWhile_sublist _).length_le
    _ = (l.dropWhile jsIsWs).length := List.length_reverse _
    _ ≤ l.length := (List.dropWhile_sublist _).length_le

/-- C10: the listing-draft title is at most 60 characters with whitespace
runs collapsed to single spaces, whether it came from a user titulo/title
override or from the vision-generated title. -/
theorem buildListingDraftTitle_clamped (input : String → Option (List Char))
    (visionTitle : List Char) :
    (buildListingDraftTitle input visionTitle).length ≤ 60 ∧
      noDoubleWs (buildListingDraftTitle input visionTitle) ∧
      ∀ c ∈ buildListingDraftTitle input visionTitle, jsIsWs c = true → c = ' ' := by
  rw [buildListingDraftTitle]
  generalize (input "titulo").getD ((input "title").getD visionTitle) = raw
  rw [clampTitle]
  set t := collapseWs (jsTrim raw) with ht
  have hchain : noDoubleWs t := collapseWsGo_chain _ false
  have hmem : ∀ c ∈ t, jsIsWs c = true → c = ' ' := fun c hc => collapseWsGo_ws_is_space _ false c hc
  by_cases hlen : t.length ≤ 60
  · rw [if_pos hlen]
    exact ⟨hlen, hchain, hmem⟩
  · rw [if_neg hlen]
    refine ⟨?_, noDoubleWs_jsTrim (hchain.take 60), ?_⟩
    · calc (jsTrim (t.take 60)).length ≤ (t.take 60).length := jsTrim_length_le _
        _ ≤ 60 := by simp
    · intro c hc hws
      exact hmem c (List.take_subset 60 t (mem_jsTrim hc)) hws

theorem updateSessionDb_id (db : Db) (sid : String) (f : Session → Session)
    (h : ∀ s ∈ db.sessions, s.id = sid → f s = s) : updateSessionDb db sid f = db := by
  cases db with
  | mk sessions =>
    simp only [updateSessionDb, Db.mk.injEq]
    induction sessions with
    | nil => rfl
    | cons a rest ih =>
      simp only [List.map_cons, List.cons.injEq]
      constructor
      · by_cases ha : a.id == sid
        · rw [if_pos ha]
          exact h a (List.mem_cons_self a rest) (eq_of_beq ha)
        · rw [if_neg ha]
      · exact ih fun s hs hid => h s (List.mem_cons_of_mem a hs) hid

theorem analyzeSuccessApply_stale (v : VisionResult) (cid : Option String)
    (pr : Option PriceAnalysis) (now : ℕ) (s : Session)
    (h : s.status ≠ .analyzing) : analyzeSuccessApply v cid pr now s = s := by
  unfold analyzeSuccessApply
  rw [if_pos (bne_iff_ne.mpr h)]

theorem analyzeFailureApply_stale (errMsg : String) (now : ℕ) (s : Session)
    (h : s.status ≠ .analyzing) : analyzeFailureApply errMsg now s = s := by
  unfold analyzeFailureApply
  rw [if_pos (bne_iff_ne.mpr h)]

/-- C2: when the session's status is no longer `analyzing` at commit time,
both completion commits are no-ops: the success commit returns the document
unchanged with `applied = false` (so no transition to `awaiting_user_info`),
and the failure commit returns the document unchanged (so no transition to
`error`). -/
theorem analysis_commit_discards_stale (db : Db) (sid : String) (v : VisionResult)
    (cid : Option String) (pr : Option PriceAnalysis) (errMsg : String) (now : ℕ)
    (h : ∀ s ∈ db.sessions, s.id = sid → s.status ≠ .analyzing) :
    analyzeSuccessCommit db sid v cid pr now = (db, false) ∧
      analyzeFailureCommit db sid errMsg now = db := by
  constructor
  · unfold analyzeSuccessCommit
    have h1 : updateSessionDb db sid (analyzeSuccessApply v cid pr now) = db :=
      updateSessionDb_id db sid _ fun s hs hid =>
        analyzeSuccessApply_stale v cid pr now s (h s hs hid)
    rw [h1]
    have h2 : (findSession db sid).elim false (fun s => s.status == .analyzing) = false := by
      cases hf : findSession db sid with
      | none => rfl
      | some s =>
        have hf' : db.sessions.find? (fun t => t.id == sid) = some s := hf
        have hmem := List.mem_of_find?_eq_some hf'
        have hid : s.id = sid := eq_of_beq (by simpa using List.find?_some hf')
        simp only [Option.elim_some]
        exact beq_eq_false_iff_ne.mpr (h s hmem hid)
    rw [h2]
  · exact updateSessionDb_id db sid _ fun s hs hid =>
      analyzeFailureApply_stale errMsg now s (h s hs hid)

/-- Witness for C2 at a cancelled session. -/
theorem analysis_commit_discards_stale_witness :
    (∀ s ∈ (Db.mk [cancelledSession]).sessions, s.id = "s1" → s.status ≠ .analyzing) ∧
      (analyzeSuccessCommit ⟨[cancelledSession]⟩ "s1"
          ⟨1, ⟨"x", none, none, none, none, .used⟩⟩ none none 9000 =
        (⟨[cancelledSession]⟩, false) ∧
        analyzeFailureCommit ⟨[cancelledSession]⟩ "s1" "boom" 9000 = ⟨[cancelledSession]⟩) :=
  ⟨by decide, analysis_commit_discards_stale ⟨[cancelledSession]⟩ "s1"
    ⟨1, ⟨"x", none, none, none, none, .used⟩⟩ none none "boom" 9000 (by decide)⟩

/-- C3: the debounce-timer handler applies `collecting_photos → analyzing`
only when the session is still collecting and its deadline is not in the
future (`collectUntilFuture … = false`, i.e. `now ≥ collectUntil`); a stale
timer that fires while `collectUntil` is still ahead leaves the document
unchanged and reschedules for the remaining time (at least one second). -/
theorem analyzeDebounceCommit_found (db : Db) (sid : String) (now : ℕ) (s : Session)
    (hfind : findSession db sid = some s) :
    analyzeDebounceCommit db sid now =
      if s.status != .collecting_photos then ⟨db, false, none⟩
      else if collectUntilFuture s.collectUntil now then ⟨db, false, s.collectUntil⟩
      else
        ⟨updateSessionDb db sid fun t =>
          { t with status := .analyzing, updatedAt := now }, true, none⟩ := by
  unfold analyzeDebounceCommit
  rw [hfind]

/-- C3: the debounce-timer handler applies `collecting_photos → analyzing`
only when the session is still collecting and its deadline is not in the
future (`collectUntilFuture … = false`, i.e. `now ≥ collectUntil`); a stale
timer that fires while `collectUntil` is still ahead leaves the document
unchanged and reschedules for the remaining time (at least one second). -/
theorem debounce_guarded_cas (db : Db) (sid : String) (now : ℕ) (s : Session)
    (hfind : findSession db sid = some s) :
    ((analyzeSessionStep db sid now).2 = .proceed →
        s.status = .collecting_photos ∧ collectUntilFuture s.collectUntil now = false) ∧
      ∀ c, s.collectUntil = some c → now < c → s.status = .collecting_photos →
        analyzeSessionStep db sid now = (db, .reschedule (Nat.max 1000 (c - now))) := by
  have hcom := analyzeDebounceCommit_found db sid now s hfind
  by_cases hst : s.status = .collecting_photos
  · by_cases hfut : collectUntilFuture s.collectUntil now = true
    · have heq : analyzeDebounceCommit db sid now = ⟨db, false, s.collectUntil⟩ := by
        rw [hcom, if_neg (by simp [hst]), if_pos hfut]
      constructor
      · intro hp
        cases hcu : s.collectUntil with
        | none => rw [hcu] at hfut; simp [collectUntilFuture] at hfut
        | some c => simp [analyzeSessionStep, heq, hcu] at hp
      · intro c hcu _ _
        simp [analyzeSessionStep, heq, hcu]
    · have heq : analyzeDebounceCommit db sid now =
          ⟨updateSessionDb db sid fun t =>
            { t with status := .analyzing, updatedAt := now }, true, none⟩ := by
        rw [hcom, if_neg (by simp [hst]), if_neg hfut]
      constructor
      · intro _
        exact ⟨hst, by simpa using hfut⟩
      · intro c hcu hnow _
        have h0 : c ≠ 0 := by omega
        rw [hcu] at hfut
        exact absurd (by simp [collectUntilFuture, hnow, h0]) hfut
  · have heq : analyzeDebounceCommit db sid now = ⟨db, false, none⟩ := by
      rw [hcom, if_pos (bne_iff_ne.mpr hst)]
    constructor
    · intro hp
      simp [analyzeSessionStep, heq] at hp
    · intro c _ _ hcol
      exact absurd hcol hst

/-- Witness for C3 at a stale timer: the session's deadline 50000 is still
20 seconds ahead of `now = 30000`, so the timer run leaves the document
unchanged and reschedules for the remaining 20000 ms. -/
theorem debounce_guarded_cas_witness :
    findSession ⟨[baseSession]⟩ "s1" = some baseSession ∧
      (((analyzeSessionStep ⟨[baseSession]⟩ "s1" 30000).2 = .proceed →
          baseSession.status = .collecting_photos ∧
            collectUntilFuture baseSession.collectUntil 30000 = false) ∧
        ∀ c, baseSession.collectUntil = some c → 30000 < c →
          baseSession.status = .collecting_photos →
          analyzeSessionStep ⟨[baseSession]⟩ "s1" 30000 =
            (⟨[baseSession]⟩, .reschedule (Nat.max 1000 (c - 30000)))) :=
  ⟨by decide, debounce_guarded_cas ⟨[baseSession]⟩ "s1" 30000 baseSession (by decide)⟩

/-- C1: when the publish pipeline fails after the item was created, the
session is closed `done` with the error attached and `published.item_id`
kept, and — because `findActiveSession` filters out terminal statuses — a
later `confirmar` finds no active session to act on. -/
theorem publish_failure_after_create (s : Session) (created : MlCreateItemResult)
    (errMsg : String) (now : ℕ)
    (hstat : s.status = .publishing)
    (hpub : ∀ p, s.published = some p → p.item_id = created.id) :
    (publishCatchCreatedApply created errMsg now s).status = .done ∧
      (publishCatchCreatedApply created errMsg now s).error = some errMsg ∧
      (publishCatchCreatedApply created errMsg now s).published.map
          PublishedItem.item_id = some created.id ∧
      terminalStatus (publishCatchCreatedApply created errMsg now s).status = true ∧
      findActiveSession ⟨[publishCatchCreatedApply created errMsg now s]⟩
        s.groupId s.userId SessionScope.group = none ∧
      findActiveSession ⟨[publishCatchCreatedApply created errMsg now s]⟩
        s.groupId s.userId SessionScope.user = none := by
  have hdone : (publishCatchCreatedApply created errMsg now s).status = .done := by
    simp only [publishCatchCreatedApply]
    rw [if_pos (by simp [hstat])]
  have herr : (publishCatchCreatedApply created errMsg now s).error = some errMsg := rfl
  have hitem : (publishCatchCreatedApply created errMsg now s).published.map
      PublishedItem.item_id = some created.id := by
    simp only [publishCatchCreatedApply, Option.map_some]
    have hbase : (s.published.getD ⟨created.id, none, none⟩).item_id = created.id := by
      cases hp : s.published with
      | none => rfl
      | some p => simpa using hpub p hp
    split <;> split <;> simpa using hbase
  have hgrp : (publishCatchCreatedApply created errMsg now s).groupId = s.groupId := by
    simp [publishCatchCreatedApply]
  have hnone : ∀ scope, findActiveSession ⟨[publishCatchCreatedApply created errMsg now s]⟩
      s.groupId s.userId scope = none := by
    intro scope
    simp [findActiveSession, terminalStatus, hdone]
  exact ⟨hdone, herr, hitem, by simp [terminalStatus, hdone], hnone _, hnone _⟩

/-- Witness for C1 at a concrete publishing session with no prior
`published` record. -/
theorem publish_failure_after_create_witness :
    (publishCatchCreatedApply createdItemEx "description failed" 60000
        publishingSession).status = .done ∧
      (publishCatchCreatedApply createdItemEx "description failed" 60000
        publishingSession).error = some "description failed" ∧
      (publishCatchCreatedApply createdItemEx "description failed" 60000
        publishingSession).published.map PublishedItem.item_id = some createdItemEx.id ∧
      terminalStatus (publishCatchCreatedApply createdItemEx "description failed" 60000
        publishingSession).status = true ∧
      findActiveSession ⟨[publishCatchCreatedApply createdItemEx "description failed" 60000
        publishingSession]⟩ publishingSession.groupId publishingSession.userId
        SessionScope.group = none ∧
      findActiveSession ⟨[publishCatchCreatedApply createdItemEx "description failed" 60000
        publishingSession]⟩ publishingSession.groupId publishingSession.userId
        SessionScope.user = none :=
  publish_failure_after_create publishingSession createdItemEx "description failed" 60000
    (by decide) (by decide)

/-- C9: an `update` whose mutator or persist step fails propagates the error
and leaves the store unchanged: a subsequent `read` returns the document as
it was before the update. -/
theorem storeUpdate_error_frame (st : StoreState) (mutator : Db → Except String Db)
    (o : WriteOutcome) (e : String)
    (h : (storeUpdate st mutator o).1 = .error e) :
    (storeUpdate st mutator o).2 = st ∧
      storeRead (storeUpdate st mutator o).2 = storeRead st := by
  suffices hs : (storeUpdate st mutator o).2 = st by
    exact ⟨hs, by rw [hs]⟩
  unfold storeUpdate
  cases hm : mutator (readUnlocked st) with
  | error e' => simp only [hm]
  | ok db' =>
    cases o with
    | ok =>
      unfold storeUpdate at h
      simp only [hm, writeFileAtomicM] at h
      exact Except.noConfusion h
    | tmpWriteFail => simp only [hm, writeFileAtomicM]
    | renameFail => simp only [hm, writeFileAtomicM]

/-- Witness for C9: a throwing mutator on a concrete store. -/
theorem storeUpdate_error_frame_witness :
    (storeUpdate storeEx failingMutator .ok).1 = .error "mutator boom" ∧
      ((storeUpdate storeEx failingMutator .ok).2 = storeEx ∧
        storeRead (storeUpdate storeEx failingMutator .ok).2 = storeRead storeEx) :=
  ⟨rfl, storeUpdate_error_frame storeEx failingMutator .ok "mutator boom" rfl⟩

/-- Counterexample to C8 as stated: a `BRAND` attribute carrying exactly one
enumerated option is auto-filled with that option's `value_id` even though
the vision brand fact is `null` (`vision` itself absent). -/
theorem guess_null_evidence_cex :
    guessRequiredAttributeValue brandSingleOption emptyDraft none =
      some ⟨none, some "111"⟩ := by
  decide

/-- `pickAttributeOption` with the single null candidate produces nothing
unless the attribute has exactly one enumerated option. -/
theorem pickAttributeOption_none_single (attr : MlCategoryAttribute)
    (hvals : attr.values.length ≠ 1) :
    pickAttributeOption attr [none] = none := by
  have hclean : ((([(none : Option String)]).map fun v => jsStrTrim (v.getD "")).filter
      fun s => s != "") = ([] : List String) := by decide
  have hlen : (attr.values.length == 1) = false := beq_eq_false_iff_ne.mpr hvals
  unfold pickAttributeOption
  simp only [hclean, hlen, Bool.false_eq_true, if_false, pickLoop, ite_self, List.head?_nil]
  rfl

/-- C8 (amended): for brand/model/color/material attributes whose
enumerated-option count is not exactly one, a null vision fact means the
negotiator fills nothing; an attribute with exactly one enumerated option is
auto-selected outright regardless of vision evidence (the spec's own special
case). -/
theorem guess_no_fabrication_amended (attr : MlCategoryAttribute) (draft : ListingDraft)
    (vision : Option VisionResult)
    (hid : jsToUpper attr.id = "BRAND" ∨ jsToUpper attr.id = "MODEL" ∨
      jsToUpper attr.id = "COLOR" ∨ jsToUpper attr.id = "MAIN_COLOR" ∨
      jsToUpper attr.id = "MATERIAL")
    (hfact : visionFact (jsToUpper attr.id) vision = none)
    (hvals : attr.values.length ≠ 1) :
    guessRequiredAttributeValue attr draft vision = none := by
  have hpick := pickAttributeOption_none_single attr hvals
  rcases hid with h | h | h | h | h
  · have hf : vision.bind (fun v => v.product.brand) = none := by
      have h2 := hfact; rw [h] at h2; exact h2
    have hstep : guessRequiredAttributeValue attr draft vision =
        pickAttributeOption attr [vision.bind fun v => v.product.brand] := by
      unfold guessRequiredAttributeValue; rw [h]; rfl
    rw [hstep, hf]; exact hpick
  · have hf : vision.bind (fun v => v.product.model) = none := by
      have h2 := hfact; rw [h] at h2; exact h2
    have hstep : guessRequiredAttributeValue attr draft vision =
        pickAttributeOption attr [vision.bind fun v => v.product.model] := by
      unfold guessRequiredAttributeValue; rw [h]; rfl
    rw [hstep, hf]; exact hpick
  · have hf : vision.bind (fun v => v.product.color) = none := by
      have h2 := hfact; rw [h] at h2; exact h2
    have hstep : guessRequiredAttributeValue attr draft vision =
        pickAttributeOption attr [vision.bind fun v => v.product.color] := by
      unfold guessRequiredAttributeValue; rw [h]; rfl
    rw [hstep, hf]; exact hpick
  · have hf : vision.bind (fun v => v.product.color) = none := by
      have h2 := hfact; rw [h] at h2; exact h2
    have hstep : guessRequiredAttributeValue attr draft vision =
        pickAttributeOption attr [vision.bind fun v => v.product.color] := by
      unfold guessRequiredAttributeValue; rw [h]; rfl
    rw [hstep, hf]; exact hpick
  · have hf : vision.bind (fun v => v.product.material) = none := by
      have h2 := hfact; rw [h] at h2; exact h2
    have hstep : guessRequiredAttributeValue attr draft vision =
        pickAttributeOption attr [vision.bind fun v => v.product.material] := by
      unfold guessRequiredAttributeValue; rw [h]; rfl
    rw [hstep, hf]; exact hpick

/-- Witness for C8 (amended): a two-option `COLOR` attribute with no vision
at all is left unfilled. -/
theorem guess_no_fabrication_amended_witness :
    (jsToUpper colorTwoOptions.id = "BRAND" ∨ jsToUpper colorTwoOptions.id = "MODEL" ∨
      jsToUpper colorTwoOptions.id = "COLOR" ∨ jsToUpper colorTwoOptions.id = "MAIN_COLOR" ∨
      jsToUpper colorTwoOptions.id = "MATERIAL") ∧
      visionFact (jsToUpper colorTwoOptions.id) none = none ∧
      colorTwoOptions.values.length ≠ 1 ∧
      guessRequiredAttributeValue colorTwoOptions emptyDraft none = none :=
  ⟨by decide, by decide, by decide,
    guess_no_fabrication_amended colorTwoOptions emptyDraft none (by decide) (by decide)
      (by decide)⟩

theorem pastFetch_leaderish (pc : CallerPc) (h : pastFetch pc = true) :
    isLeaderish pc = true := by
  cases pc <;> simp [pastFetch, isLeaderish] at h ⊢

theorem pastSave_leaderish (pc : CallerPc) (h : pastSave pc = true) :
    isLeaderish pc = true := by
  cases pc <;> simp [pastSave, isLeaderish] at h ⊢

theorem activeLeader_leaderish (pc : CallerPc) (h : isActiveLeader pc = true) :
    isLeaderish pc = true := by
  cases pc <;> simp [isActiveLeader, isLeaderish] at h ⊢

theorem update_class_eq {n : ℕ} (f : CallerPc → Bool) (pcs : Fin n → CallerPc) (i : Fin n)
    (pc : CallerPc) (hsame : f pc = f (pcs i)) (j : Fin n) :
    f (Function.update pcs i pc j) = f (pcs j) := by
  by_cases hj : j = i
  · subst hj; rw [Function.update_same, hsame]
  · rw [Function.update_noteq hj]

theorem update_self_eval {n : ℕ} (f : CallerPc → Bool) (pcs : Fin n → CallerPc) (i : Fin n)
    (pc : CallerPc) : f (Function.update pcs i pc i) = f pc := by
  rw [Function.update_same]

theorem exists_update_class {n : ℕ} (f : CallerPc → Bool) (pcs : Fin n → CallerPc) (i : Fin n)
    (pc : CallerPc) (hsame : f pc = f (pcs i)) :
    (∃ j, f (Function.update pcs i pc j) = true) ↔ ∃ j, f (pcs j) = true :=
  exists_congr fun j => by rw [update_class_eq f pcs i pc hsame j]

/-- The invariant holds initially: everyone is at `start`, nothing has been
fetched, resolved or saved. -/
theorem singleFlightInv_init (now : ℕ) (oldTok newTok : MlTokens) (n : ℕ)
    (hold : tokenFresh oldTok now = false) (hnew : tokenFresh newTok now = true) :
    SingleFlightInv now oldTok newTok (initClient n oldTok) := by
  refine ⟨?_, ?_, ?_, ?_, Or.inl rfl, ?_, rfl, ?_, ?_, ?_, ?_⟩
  · intro i j hi; simp [initClient, isLeaderish] at hi
  · intro _; rfl
  · intro i hi; simp [initClient, isLeaderish] at hi
  · constructor
    · intro h; exact absurd h (by simp [initClient])
    · rintro ⟨i, hi⟩; simp [initClient, isActiveLeader] at hi
  · constructor
    · intro h
      have : tokenFresh newTok now = false := h ▸ hold
      rw [hnew] at this; exact Bool.noConfusion this
    · rintro ⟨i, hi⟩; simp [initClient, pastFetch] at hi
  · constructor
    · intro h; exact Bool.noConfusion h
    · rintro ⟨i, hi⟩; simp [initClient, pastSave] at hi
  · intro i t hi; simp [initClient] at hi
  · intro i t hi; simp [initClient] at hi
  · intro i t hi; simp [initClient] at hi

/-- Preservation helper: only caller `i`'s program counter changes, to a pc
of the same leaderish/active/fetched/saved classification. -/
theorem singleFlightInv_update_quiet (now : ℕ) (oldTok newTok : MlTokens) {n : ℕ}
    (s : ClientState n) (i : Fin n) (pc : CallerPc)
    (inv : SingleFlightInv now oldTok newTok s)
    (hL : isLeaderish pc = isLeaderish (s.pcs i))
    (hA : isActiveLeader pc = isActiveLeader (s.pcs i))
    (hF : pastFetch pc = pastFetch (s.pcs i))
    (hS : pastSave pc = pastSave (s.pcs i))
    (hdl : ∀ t, pc = CallerPc.doneLeader t → t = newTok.access_token)
    (hdw : ∀ t, pc = CallerPc.doneWaiter t → t = newTok.access_token ∧ s.saved = true)
    (hdt : ∀ t, pc = CallerPc.doneLate t →
      t = newTok.access_token ∧ s.tokens = newTok) :
    SingleFlightInv now oldTok newTok { s with pcs := Function.update s.pcs i pc } := by
  obtain ⟨uniq, f0, f1, infl, ton, tnew, res, sav, dlead, dwait, dlate⟩ := inv
  refine ⟨?_, ?_, ?_, ?_, ton, ?_, res, ?_, ?_, ?_, ?_⟩
  · intro a b ha hb
    refine uniq a b ?_ ?_
    · rw [← update_class_eq isLeaderish s.pcs i pc hL a]; exact ha
    · rw [← update_class_eq isLeaderish s.pcs i pc hL b]; exact hb
  · intro h
    exact f0 fun j => by rw [← update_class_eq isLeaderish s.pcs i pc hL j]; exact h j
  · intro j hj
    refine f1 j ?_
    rw [← update_class_eq isLeaderish s.pcs i pc hL j]; exact hj
  · exact infl.trans (exists_update_class isActiveLeader s.pcs i pc hA).symm
  · exact tnew.trans (exists_update_class pastFetch s.pcs i pc hF).symm
  · exact sav.trans (exists_update_class pastSave s.pcs i pc hS).symm
  · intro j t hj
    have hj0 : Function.update s.pcs i pc j = CallerPc.doneLeader t := hj
    by_cases hji : j = i
    · subst hji; rw [Function.update_same] at hj0; exact hdl t hj0
    · rw [Function.update_noteq hji] at hj0; exact dlead j t hj0
  · intro j t hj
    have hj0 : Function.update s.pcs i pc j = CallerPc.doneWaiter t := hj
    by_cases hji : j = i
    · subst hji; rw [Function.update_same] at hj0; exact hdw t hj0
    · rw [Function.update_noteq hji] at hj0; exact dwait j t hj0
  · intro j t hj
    have hj0 : Function.update s.pcs i pc j = CallerPc.doneLate t := hj
    by_cases hji : j = i
    · subst hji; rw [Function.update_same] at hj0; exact hdt t hj0
    · rw [Function.update_noteq hji] at hj0; exact dlate j t hj0

/-- One scheduler step preserves the invariant. -/
theorem singleFlightInv_step (now : ℕ) (oldTok newTok : MlTokens) {n : ℕ}
    (s : ClientState n) (i : Fin n)
    (hold : tokenFresh oldTok now = false) (hnew : tokenFresh newTok now = true)
    (inv : SingleFlightInv now oldTok newTok s) :
    SingleFlightInv now oldTok newTok (clientStep now newTok s i) := by
  have hne : oldTok ≠ newTok := by
    intro he; rw [he, hnew] at hold; exact Bool.noConfusion hold
  obtain ⟨uniq, f0, f1, infl, ton, tnew, res, sav, dlead, dwait, dlate⟩ := inv
  have invp : SingleFlightInv now oldTok newTok s :=
    ⟨uniq, f0, f1, infl, ton, tnew, res, sav, dlead, dwait, dlate⟩
  cases hpc : s.pcs i with
  | start =>
    simp only [clientStep, hpc]
    by_cases ht : tokenFresh s.tokens now = true
    · rw [if_pos ht]
      have htok : s.tokens = newTok := by
        rcases ton with h | h
        · rw [h, hold] at ht; exact Bool.noConfusion ht
        · exact h
      refine singleFlightInv_update_quiet now oldTok newTok s i _ invp
        (by rw [hpc]; rfl) (by rw [hpc]; rfl) (by rw [hpc]; rfl) (by rw [hpc]; rfl)
        (fun t h => CallerPc.noConfusion h) (fun t h => CallerPc.noConfusion h) ?_
      intro t h
      injection h with h
      exact ⟨h.symm.trans (by rw [htok]), htok⟩
    · by_cases hin : s.inflight = true
      · rw [if_neg ht, if_pos hin]
        exact singleFlightInv_update_quiet now oldTok newTok s i _ invp
          (by rw [hpc]; rfl) (by rw [hpc]; rfl) (by rw [hpc]; rfl) (by rw [hpc]; rfl)
          (fun t h => CallerPc.noConfusion h) (fun t h => CallerPc.noConfusion h)
          (fun t h => CallerPc.noConfusion h)
      · rw [if_neg ht, if_neg hin]
        have hts : s.tokens = oldTok := by
          rcases ton with h | h
          · exact h
          · exact absurd (by rw [h]; exact hnew) ht
        have hnolead : ∀ j, isLeaderish (s.pcs j) = false := by
          intro j
          cases hpcj : s.pcs j
          case leaderFetch =>
            exact absurd (infl.mpr ⟨j, by rw [hpcj]; rfl⟩) hin
          case leaderSave =>
            exact absurd (infl.mpr ⟨j, by rw [hpcj]; rfl⟩) hin
          case leaderResolve =>
            exact absurd (infl.mpr ⟨j, by rw [hpcj]; rfl⟩) hin
          case doneLeader t =>
            have h1 : s.tokens = newTok := tnew.mpr ⟨j, by rw [hpcj]; rfl⟩
            exact absurd (by rw [h1]; exact hnew) ht
          all_goals rfl
        have honlyi : ∀ a, isLeaderish (Function.update s.pcs i CallerPc.leaderFetch a) = true →
            a = i := by
          intro a ha
          by_cases h : a = i
          · exact h
          · rw [Function.update_noteq h, hnolead a] at ha
            exact Bool.noConfusion ha
        refine ⟨?_, ?_, ?_, ?_, Or.inl hts, ?_, res, ?_, ?_, ?_, ?_⟩
        · intro a b ha hb
          rw [honlyi a ha, honlyi b hb]
        · intro h
          have hi : isLeaderish (Function.update s.pcs i CallerPc.leaderFetch i) = false := h i
          rw [Function.update_same] at hi
          exact Bool.noConfusion hi
        · intro j hj
          have h0 : s.fetchCount = 0 := f0 hnolead
          show s.fetchCount + 1 = 1
          rw [h0]
        · constructor
          · intro _
            exact ⟨i, (update_self_eval isActiveLeader s.pcs i CallerPc.leaderFetch).trans rfl⟩
          · intro _; rfl
        · constructor
          · intro h
            exact absurd (hts ▸ h) hne
          · rintro ⟨j, hj⟩
            exfalso
            have hj0 : pastFetch (Function.update s.pcs i CallerPc.leaderFetch j) = true := hj
            by_cases hji : j = i
            · subst hji; rw [Function.update_same] at hj0; exact Bool.noConfusion hj0
            · rw [Function.update_noteq hji] at hj0
              have hlj := pastFetch_leaderish _ hj0
              rw [hnolead j] at hlj
              exact Bool.noConfusion hlj
        · constructor
          · intro h
            obtain ⟨j, hj⟩ := sav.mp h
            exfalso
            have := pastSave_leaderish _ hj
            rw [hnolead j] at this
            exact Bool.noConfusion this
          · rintro ⟨j, hj⟩
            exfalso
            have hj0 : pastSave (Function.update s.pcs i CallerPc.leaderFetch j) = true := hj
            by_cases hji : j = i
            · subst hji; rw [Function.update_same] at hj0; exact Bool.noConfusion hj0
            · rw [Function.update_noteq hji] at hj0
              have hlj := pastSave_leaderish _ hj0
              rw [hnolead j] at hlj
              exact Bool.noConfusion hlj
        · intro j t hj
          have hj0 : Function.update s.pcs i CallerPc.leaderFetch j = CallerPc.doneLeader t := hj
          by_cases hji : j = i
          · subst hji; rw [Function.update_same] at hj0; exact CallerPc.noConfusion hj0
          · rw [Function.update_noteq hji] at hj0; exact dlead j t hj0
        · intro j t hj
          have hj0 : Function.update s.pcs i CallerPc.leaderFetch j = CallerPc.doneWaiter t := hj
          by_cases hji : j = i
          · subst hji; rw [Function.update_same] at hj0; exact CallerPc.noConfusion hj0
          · rw [Function.update_noteq hji] at hj0; exact dwait j t hj0
        · intro j t hj
          have hj0 : Function.update s.pcs i CallerPc.leaderFetch j = CallerPc.doneLate t := hj
          by_cases hji : j = i
          · subst hji; rw [Function.update_same] at hj0; exact CallerPc.noConfusion hj0
          · rw [Function.update_noteq hji] at hj0
            exact absurd ((dlate j t hj0).2 ▸ hts ▸ rfl : oldTok = newTok) hne
  | waiting =>
    cases ho : s.resolved with
    | none =>
      have hgoal : clientStep now newTok s i = s := by
        simp only [clientStep, hpc, ho]
      rw [hgoal]
      exact invp
    | some tok =>
      have hsaved : s.saved = true := by
        cases hsv : s.saved
        · rw [res, hsv] at ho; exact Option.noConfusion ho
        · rfl
      have htok : tok = newTok.access_token := by
        have h2 : s.resolved = some newTok.access_token := by rw [res, hsaved]; rfl
        rw [ho] at h2
        injection h2 with h
      have hgoal : clientStep now newTok s i =
          { s with pcs := Function.update s.pcs i (CallerPc.doneWaiter tok) } := by
        simp only [clientStep, hpc, ho]
      rw [hgoal]
      refine singleFlightInv_update_quiet now oldTok newTok s i _ invp
        (by rw [hpc]; rfl) (by rw [hpc]; rfl) (by rw [hpc]; rfl) (by rw [hpc]; rfl)
        (fun t h => CallerPc.noConfusion h) ?_ (fun t h => CallerPc.noConfusion h)
      intro t h
      injection h with h
      exact ⟨h.symm.trans htok, hsaved⟩
  | leaderFetch =>
    simp only [clientStep, hpc]
    refine ⟨?_, ?_, ?_, ?_, Or.inr rfl, ?_, res, ?_, ?_, ?_, ?_⟩
    · intro a b ha hb
      refine uniq a b ?_ ?_
      · rw [← update_class_eq isLeaderish s.pcs i CallerPc.leaderSave (by rw [hpc]; rfl) a]; exact ha
      · rw [← update_class_eq isLeaderish s.pcs i CallerPc.leaderSave (by rw [hpc]; rfl) b]; exact hb
    · intro h
      exact f0 fun j => by
        rw [← update_class_eq isLeaderish s.pcs i CallerPc.leaderSave (by rw [hpc]; rfl) j]
        exact h j
    · intro j hj
      refine f1 j ?_
      rw [← update_class_eq isLeaderish s.pcs i CallerPc.leaderSave (by rw [hpc]; rfl) j]; exact hj
    · refine infl.trans (exists_update_class isActiveLeader s.pcs i CallerPc.leaderSave
        (by rw [hpc]; rfl)).symm
    · constructor
      · intro _
        exact ⟨i, (update_self_eval pastFetch s.pcs i CallerPc.leaderSave).trans rfl⟩
      · intro _; rfl
    · exact sav.trans (exists_update_class pastSave s.pcs i CallerPc.leaderSave
        (by rw [hpc]; rfl)).symm
    · intro j t hj
      have hj0 : Function.update s.pcs i CallerPc.leaderSave j = CallerPc.doneLeader t := hj
      by_cases hji : j = i
      · subst hji; rw [Function.update_same] at hj0; exact CallerPc.noConfusion hj0
      · rw [Function.update_noteq hji] at hj0; exact dlead j t hj0
    · intro j t hj
      have hj0 : Function.update s.pcs i CallerPc.leaderSave j = CallerPc.doneWaiter t := hj
      by_cases hji : j = i
      · subst hji; rw [Function.update_same] at hj0; exact CallerPc.noConfusion hj0
      · rw [Function.update_noteq hji] at hj0; exact dwait j t hj0
    · intro j t hj
      have hj0 : Function.update s.pcs i CallerPc.leaderSave j = CallerPc.doneLate t := hj
      by_cases hji : j = i
      · subst hji; rw [Function.update_same] at hj0; exact CallerPc.noConfusion hj0
      · rw [Function.update_noteq hji] at hj0; exact ⟨(dlate j t hj0).1, rfl⟩
  | leaderSave =>
    simp only [clientStep, hpc]
    refine ⟨?_, ?_, ?_, ?_, ton, ?_, rfl, ?_, ?_, ?_, ?_⟩
    · intro a b ha hb
      refine uniq a b ?_ ?_
      · rw [← update_class_eq isLeaderish s.pcs i CallerPc.leaderResolve (by rw [hpc]; rfl) a]; exact ha
      · rw [← update_class_eq isLeaderish s.pcs i CallerPc.leaderResolve (by rw [hpc]; rfl) b]; exact hb
    · intro h
      exact f0 fun j => by
        rw [← update_class_eq isLeaderish s.pcs i CallerPc.leaderResolve (by rw [hpc]; rfl) j]
        exact h j
    · intro j hj
      refine f1 j ?_
      rw [← update_class_eq isLeaderish s.pcs i CallerPc.leaderResolve (by rw [hpc]; rfl) j]; exact hj
    · exact infl.trans (exists_update_class isActiveLeader s.pcs i CallerPc.leaderResolve
        (by rw [hpc]; rfl)).symm
    · exact tnew.trans (exists_update_class pastFetch s.pcs i CallerPc.leaderResolve
        (by rw [hpc]; rfl)).symm
    · constructor
      · intro _
        exact ⟨i, (update_self_eval pastSave s.pcs i CallerPc.leaderResolve).trans rfl⟩
      · intro _; rfl
    · intro j t hj
      have hj0 : Function.update s.pcs i CallerPc.leaderResolve j = CallerPc.doneLeader t := hj
      by_cases hji : j = i
      · subst hji; rw [Function.update_same] at hj0; exact CallerPc.noConfusion hj0
      · rw [Function.update_noteq hji] at hj0; exact dlead j t hj0
    · intro j t hj
      have hj0 : Function.update s.pcs i CallerPc.leaderResolve j = CallerPc.doneWaiter t := hj
      by_cases hji : j = i
      · subst hji; rw [Function.update_same] at hj0; exact CallerPc.noConfusion hj0
      · rw [Function.update_noteq hji] at hj0; exact ⟨(dwait j t hj0).1, rfl⟩
    · intro j t hj
      have hj0 : Function.update s.pcs i CallerPc.leaderResolve j = CallerPc.doneLate t := hj
      by_cases hji : j = i
      · subst hji; rw [Function.update_same] at hj0; exact CallerPc.noConfusion hj0
      · rw [Function.update_noteq hji] at hj0; exact dlate j t hj0
  | leaderResolve =>
    simp only [clientStep, hpc]
    refine ⟨?_, ?_, ?_, ?_, ton, ?_, res, ?_, ?_, ?_, ?_⟩
    · intro a b ha hb
      refine uniq a b ?_ ?_
      · rw [← update_class_eq isLeaderish s.pcs i
          (CallerPc.doneLeader newTok.access_token) (by rw [hpc]; rfl) a]
        exact ha
      · rw [← update_class_eq isLeaderish s.pcs i
          (CallerPc.doneLeader newTok.access_token) (by rw [hpc]; rfl) b]
        exact hb
    · intro h
      exact f0 fun j => by
        rw [← update_class_eq isLeaderish s.pcs i
          (CallerPc.doneLeader newTok.access_token) (by rw [hpc]; rfl) j]
        exact h j
    · intro j hj
      refine f1 j ?_
      rw [← update_class_eq isLeaderish s.pcs i
        (CallerPc.doneLeader newTok.access_token) (by rw [hpc]; rfl) j]
      exact hj
    · constructor
      · intro h; exact Bool.noConfusion h
      · rintro ⟨j, hj⟩
        exfalso
        have hj0 : isActiveLeader (Function.update s.pcs i
            (CallerPc.doneLeader newTok.access_token) j) = true := hj
        by_cases hji : j = i
        · subst hji; rw [Function.update_same] at hj0; exact Bool.noConfusion hj0
        · rw [Function.update_noteq hji] at hj0
          have hji2 := uniq j i (activeLeader_leaderish _ hj0) (by rw [hpc]; rfl)
          exact hji hji2
    · exact tnew.trans (exists_update_class pastFetch s.pcs i
        (CallerPc.doneLeader newTok.access_token) (by rw [hpc]; rfl)).symm
    · exact sav.trans (exists_update_class pastSave s.pcs i
        (CallerPc.doneLeader newTok.access_token) (by rw [hpc]; rfl)).symm
    · intro j t hj
      have hj0 : Function.update s.pcs i (CallerPc.doneLeader newTok.access_token) j =
          CallerPc.doneLeader t := hj
      by_cases hji : j = i
      · subst hji
        rw [Function.update_same] at hj0
        injection hj0 with h
        exact h.symm
      · rw [Function.update_noteq hji] at hj0; exact dlead j t hj0
    · intro j t hj
      have hj0 : Function.update s.pcs i (CallerPc.doneLeader newTok.access_token) j =
          CallerPc.doneWaiter t := hj
      by_cases hji : j = i
      · subst hji; rw [Function.update_same] at hj0; exact CallerPc.noConfusion hj0
      · rw [Function.update_noteq hji] at hj0; exact dwait j t hj0
    · intro j t hj
      have hj0 : Function.update s.pcs i (CallerPc.doneLeader newTok.access_token) j =
          CallerPc.doneLate t := hj
      by_cases hji : j = i
      · subst hji; rw [Function.update_same] at hj0; exact CallerPc.noConfusion hj0
      · rw [Function.update_noteq hji] at hj0; exact dlate j t hj0
  | doneLeader t =>
    simp only [clientStep, hpc]
    exact invp
  | doneWaiter t =>
    simp only [clientStep, hpc]
    exact invp
  | doneLate t =>
    simp only [clientStep, hpc]
    exact invp


/-- The invariant holds after any schedule. -/
theorem singleFlightInv_run (now : ℕ) (oldTok newTok : MlTokens) {n : ℕ}
    (hold : tokenFresh oldTok now = false) (hnew : tokenFresh newTok now = true) :
    ∀ (sched : List (Fin n)) (s : ClientState n),
      SingleFlightInv now oldTok newTok s →
      SingleFlightInv now oldTok newTok (clientRun now newTok s sched)
  | [], _, inv => inv
  | i :: rest, s, inv =>
    singleFlightInv_run now oldTok newTok hold hnew rest _
      (singleFlightInv_step now oldTok newTok s i hold hnew inv)

/-- C4: with a cached but expired (or expiring within the 60s margin) token
pair and `N` concurrent callers of `getAccessToken` interleaved by any
schedule, the token endpoint is hit at most once — exactly once as soon as
any caller has received a token — every caller that finishes receives the
access token produced by that single refresh, and whenever a caller has
finished through the refresh path (leader or waiter on the shared promise),
`saveTokens` had already completed: the pair was persisted before the token
was returned.  (A caller whose first segment runs only after the refresh has
already installed the fresh pair — `doneLate` — returns the same token but
is outside the claim's "while the cached token is expired" window.) -/
theorem getAccessToken_single_flight (n now : ℕ) (oldTok newTok : MlTokens)
    (sched : List (Fin n))
    (hold : tokenFresh oldTok now = false) (hnew : tokenFresh newTok now = true) :
    (clientRun now newTok (initClient n oldTok) sched).fetchCount ≤ 1 ∧
      ((∃ i, (finishedTok ((clientRun now newTok (initClient n oldTok) sched).pcs i)).isSome
          = true) →
        (clientRun now newTok (initClient n oldTok) sched).fetchCount = 1) ∧
      (∀ i t, finishedTok ((clientRun now newTok (initClient n oldTok) sched).pcs i) = some t →
        t = newTok.access_token) ∧
      (∀ i t, ((clientRun now newTok (initClient n oldTok) sched).pcs i =
            CallerPc.doneLeader t ∨
          (clientRun now newTok (initClient n oldTok) sched).pcs i = CallerPc.doneWaiter t) →
        (clientRun now newTok (initClient n oldTok) sched).saved = true) := by
  obtain ⟨uniq, f0, f1, infl, ton, tnew, res, sav, dlead, dwait, dlate⟩ :=
    singleFlightInv_run now oldTok newTok hold hnew sched (initClient n oldTok)
      (singleFlightInv_init now oldTok newTok n hold hnew)
  set fin := clientRun now newTok (initClient n oldTok) sched with hfin
  refine ⟨?_, ?_, ?_, ?_⟩
  · by_cases hex : ∃ j, isLeaderish (fin.pcs j) = true
    · obtain ⟨j, hj⟩ := hex
      rw [f1 j hj]
    · have hall : ∀ j, isLeaderish (fin.pcs j) = false := by
        intro j
        cases h : isLeaderish (fin.pcs j)
        · rfl
        · exact absurd ⟨j, h⟩ hex
      rw [f0 hall]
      exact Nat.zero_le 1
  · rintro ⟨i, hi⟩
    cases hpc : fin.pcs i with
    | start => rw [hpc] at hi; exact Bool.noConfusion hi
    | waiting => rw [hpc] at hi; exact Bool.noConfusion hi
    | leaderFetch => rw [hpc] at hi; exact Bool.noConfusion hi
    | leaderSave => rw [hpc] at hi; exact Bool.noConfusion hi
    | leaderResolve => rw [hpc] at hi; exact Bool.noConfusion hi
    | doneLeader t =>
      exact f1 i (by rw [hpc]; rfl)
    | doneWaiter t =>
      obtain ⟨j, hj⟩ := sav.mp (dwait i t hpc).2
      exact f1 j (pastSave_leaderish _ hj)
    | doneLate t =>
      obtain ⟨j, hj⟩ := tnew.mp (dlate i t hpc).2
      exact f1 j (pastFetch_leaderish _ hj)
  · intro i t h
    cases hpc : fin.pcs i with
    | start => rw [hpc] at h; exact Option.noConfusion h
    | waiting => rw [hpc] at h; exact Option.noConfusion h
    | leaderFetch => rw [hpc] at h; exact Option.noConfusion h
    | leaderSave => rw [hpc] at h; exact Option.noConfusion h
    | leaderResolve => rw [hpc] at h; exact Option.noConfusion h
    | doneLeader u =>
      rw [hpc] at h
      injection h with h
      exact h ▸ dlead i u hpc
    | doneWaiter u =>
      rw [hpc] at h
      injection h with h
      exact h ▸ (dwait i u hpc).1
    | doneLate u =>
      rw [hpc] at h
      injection h with h
      exact h ▸ (dlate i u hpc).1
  · rintro i t (h | h)
    · exact sav.mpr ⟨i, by rw [h]; rfl⟩
    · exact (dwait i t h).2

/-- Witness for C4 at three concrete interleaved callers. -/
theorem getAccessToken_single_flight_witness :
    tokenFresh oldTokEx 100000 = false ∧ tokenFresh newTokEx 100000 = true ∧
      ((clientRun 100000 newTokEx (initClient 3 oldTokEx) schedEx).fetchCount ≤ 1 ∧
        ((∃ i, (finishedTok ((clientRun 100000 newTokEx (initClient 3 oldTokEx)
            schedEx).pcs i)).isSome = true) →
          (clientRun 100000 newTokEx (initClient 3 oldTokEx) schedEx).fetchCount = 1) ∧
        (∀ i t, finishedTok ((clientRun 100000 newTokEx (initClient 3 oldTokEx)
            schedEx).pcs i) = some t → t = newTokEx.access_token) ∧
        (∀ i t, ((clientRun 100000 newTokEx (initClient 3 oldTokEx) schedEx).pcs i =
              CallerPc.doneLeader t ∨
            (clientRun 100000 newTokEx (initClient 3 oldTokEx) schedEx).pcs i =
              CallerPc.doneWaiter t) →
          (clientRun 100000 newTokEx (initClient 3 oldTokEx) schedEx).saved = true)) :=
  ⟨by decide, by decide,
    getAccessToken_single_flight 3 100000 oldTokEx newTokEx schedEx (by decide) (by decide)⟩

end MlBot
